import Mathlib

/-!
Verification of the report-assembly pipeline of `tools/get_about_memory.py`.

The script is Python 2, so strings are byte strings; we model them as
`List Char` restricted to the ASCII behaviour of the Python 2 string and
`re` operations (no `re.UNICODE` flag is set anywhere in the file).

Modelled functions (names follow the source):
* `get_proc_names`     : parse the b2g-procrank snapshot into a PID-name map;
* `merge_files`        : merge the per-process memory-report fragments;
* `get_dumps`          : the caller of `merge_files` (its merge branch);
* `process_dmd_files_impl` / `process_dmd_files` : classification, renaming
  and batch processing of DMD dumps.

External collaborators (file system, gzip, `fix_b2g_stack`, the remote
transport) appear only through their observable effects: file contents are
values, a write is the pair (name, payload), and the symbol-resolution step
is an oracle telling whether it raises for a given input file.
-/

namespace B2G

/-! ## Character classes of Python 2 `re` (ASCII semantics)

`\s` is the byte set space, tab, newline, carriage return, vertical tab,
form feed; `\d` is `0`-`9`; `\w` is letters, digits and underscore.
-/

/-- Python `\s` (ASCII): the six whitespace bytes. -/
def isSpaceCh (c : Char) : Bool :=
  c == ' ' || c == '\t' || c == '\n' || c == '\r' || c == '\x0b' || c == '\x0c'

/-- Python `\d` (ASCII): a decimal digit. -/
def isDigitCh (c : Char) : Bool :=
  48 ≤ c.toNat && c.toNat ≤ 57

/-- ASCII lowercase letter. -/
def isLowerCh (c : Char) : Bool :=
  97 ≤ c.toNat && c.toNat ≤ 122

/-- ASCII uppercase letter. -/
def isUpperCh (c : Char) : Bool :=
  65 ≤ c.toNat && c.toNat ≤ 90

/-- Python `\w` (ASCII): letter, digit or underscore. -/
def isWordCh (c : Char) : Bool :=
  isLowerCh c || isUpperCh c || isDigitCh c || c == '_'

/-- Python 2 `str.lower` on one ASCII byte: shift `A`-`Z` down into `a`-`z`,
leave everything else alone. -/
def lowerCh (c : Char) : Char :=
  if isUpperCh c then Char.ofNat (c.toNat + 32) else c

/-- `int()` on a digit string (the regex guarantees only `0`-`9` appears). -/
def natOfDigits (ds : List Char) : Nat :=
  ds.foldl (fun n c => 10 * n + (c.toNat - 48)) 0

/-! ## `get_proc_names` (source lines 64-83) -/

/-- Python `text.split(chr 10)`: split into lines at each newline byte;
the empty text yields one empty line, a trailing newline yields a final
empty line. -/
def splitLinesAux : List Char → List Char → List (List Char)
  | [], acc => [acc.reverse]
  | c :: cs, acc =>
    if c = '\n' then acc.reverse :: splitLinesAux cs []
    else splitLinesAux cs (c :: acc)

/-- See `splitLinesAux`. -/
def splitLines (text : List Char) : List (List Char) :=
  splitLinesAux text []

/-- The `\D*(\d+)` tail of the procrank line pattern: skip bytes until the
first digit, then capture the maximal digit run starting there (`\s` is
contained in `\D`, so the greedy `\s+\D*` pair reaches exactly the first
digit after the leading whitespace byte).  `none` when no digit occurs. -/
def firstDigitRun : List Char → Option (List Char)
  | [] => none
  | c :: cs =>
    if isDigitCh c then some (c :: cs.takeWhile isDigitCh)
    else firstDigitRun cs

/-- `re.match(r'^(\S+)\s+\D*(\d+)', line)`: group 1 is the maximal leading
run of non-whitespace bytes (it must be non-empty and must be followed by a
whitespace byte: by maximality the byte at its end, when present, is one),
group 2 is the first digit run after that whitespace byte. -/
def procLineMatch (line : List Char) : Option (List Char × List Char) :=
  let w := line.takeWhile (fun c => !isSpaceCh c)
  if w.isEmpty then none
  else
    match line.drop w.length with
    | [] => none
    | c :: rest =>
      -- by maximality of `takeWhile` the byte `c` is whitespace, so the
      -- mandatory `\s+` consumes it; the test keeps the shape of the regex.
      if isSpaceCh c then (firstDigitRun rest).map (fun ds => (w, ds))
      else none

/-- Python dict assignment `m[k] = v`: overwrite the binding when the key is
present, append it otherwise. -/
def dictUpdate : List (Nat × List Char) → Nat → List Char → List (Nat × List Char)
  | [], k, v => [(k, v)]
  | (k0, v0) :: m, k, v =>
    if k0 = k then (k, v) :: m else (k0, v0) :: dictUpdate m k v

/-- `get_proc_names` (lines 69-83): for every line of the procrank snapshot
matching the pattern, bind `int(group 2)` to `re.sub(r'\W', '', group 1).lower()`;
later lines overwrite earlier ones. -/
def get_proc_names (procrankText : List Char) : List (Nat × List Char) :=
  (splitLines procrankText).foldl
    (fun proc_names line =>
      match procLineMatch line with
      | none => proc_names
      | some (w, ds) =>
        dictUpdate proc_names (natOfDigits ds) ((w.filter isWordCh).map lowerCh))
    []

/-- The character class claimed by the specification for resolved names:
lowercase ASCII alphanumeric. -/
def isLowerAlnumCh (c : Char) : Bool :=
  isLowerCh c || isDigitCh c

/-- What the code actually guarantees: lowercase alphanumeric or underscore
(the `re.sub(r'\W', '', ...)` stripping keeps `_`, a word character). -/
def isLowerWordCh (c : Char) : Bool :=
  isLowerCh c || isDigitCh c || c == '_'

/-! ## `merge_files` (source lines 177-200)

A memory-report fragment is the result of `json.load`: a dictionary from
property names to JSON values.  The merge algorithm only ever (a) compares
the key sets, (b) tests property values for equality and (c) concatenates
the `reports` arrays, so a JSON value is modelled as either an opaque
scalar with decidable equality or an array of opaque report entries. -/

/-- A JSON value as seen by the merge: an atom (anything the merge treats
opaquely) or an array of report entries. -/
inductive JVal (α : Type) where
  | atom (a : α)
  | arr (xs : List α)
  deriving DecidableEq

/-- A loaded fragment: the ordered property list of the JSON dictionary
(`json.load` gives unique keys). -/
abbrev Dump (α : Type) := List (String × JVal α)

/-- `d.keys()`. -/
def dkeys {α : Type} (d : Dump α) : List String :=
  d.map Prod.fst

/-- `d[k]` as a total lookup (`none` when the key is absent, where Python
raises `KeyError`; every use below is guarded the way the source is). -/
def dget {α : Type} : Dump α → String → Option (JVal α)
  | [], _ => none
  | (k0, v0) :: d, k => if k0 = k then some v0 else dget d k

/-- `d[k] = v` on a present key: replace the bound value, keep the keys. -/
def dset {α : Type} : Dump α → String → JVal α → Dump α
  | [], _, _ => []
  | (k0, v0) :: d, k, v =>
    if k0 = k then (k, v) :: dset d k v else (k0, v0) :: dset d k v

/-- `set(d.keys()) == set(e.keys())` for key lists `ks`, `ls`. -/
def sameKeys (ks ls : List String) : Bool :=
  ks.all (fun k => ls.elem k) && ls.all (fun k => ks.elem k)

/-- Python `+=` as used on `merged_dump['reports']`: array concatenation.
On two non-array values the merge dictionaries in scope never reach this
operation; `none` stands for the exception Python would raise there. -/
def jAdd {α : Type} : JVal α → JVal α → Option (JVal α)
  | .arr xs, .arr ys => some (.arr (xs ++ ys))
  | _, _ => none

/-- The property names printed by the conflict loop (lines 189-192) when
folding `dump` into the accumulator `acc`: every property of the
accumulator other than `reports` whose two values differ. -/
def conflictProps {α : Type} [DecidableEq α] (acc dump : Dump α) : List String :=
  (dkeys acc).filter (fun p => decide (p ≠ "reports") && decide (dget dump p ≠ dget acc p))

/-- Result of `merge_files`.
* `crash`: an exception escapes the function (`IndexError` on an empty
  input list, `KeyError` / `TypeError` around the `reports` access);
* `noMerge`: the `return` at line 188 ran: no merged document exists and
  the `memory-reports` file is not written;
* `merged d cs`: the merged document `d` is written to `memory-reports`,
  after the conflict messages for the properties in `cs` (in print order).
-/
inductive MergeOutcome (α : Type) where
  | crash
  | noMerge
  | merged (d : Dump α) (conflicts : List String)
  deriving DecidableEq

/-- The `for dump in dumps[1:]` loop of `merge_files` (lines 182-194),
with `acc` the accumulator `merged_dump` and `confl` the conflict messages
printed so far. -/
def merge_files_rest {α : Type} [DecidableEq α] :
    Dump α → List String → List (Dump α) → MergeOutcome α
  | acc, confl, [] => .merged acc confl
  | acc, confl, dump :: rest =>
    if sameKeys (dkeys dump) (dkeys acc) then
      let confl1 := confl ++ conflictProps acc dump
      match dget dump "reports", dget acc "reports" with
      | some dv, some av =>
        match jAdd av dv with
        | some nv => merge_files_rest (dset acc "reports" nv) confl1 rest
        | none => .crash
      | _, _ => .crash
    else .noMerge

/-- `merge_files` (lines 177-200) on the loaded dumps.  `dumps[0]` raises
`IndexError` on an empty list (the caller guards against that). -/
def merge_files {α : Type} [DecidableEq α] : List (Dump α) → MergeOutcome α
  | [] => .crash
  | d0 :: rest => merge_files_rest d0 [] rest

/-- Does the fragment carry an array-valued `reports` property?  True for
every well-formed MemoryReportFragment. -/
def hasArrReports {α : Type} (d : Dump α) : Bool :=
  match dget d "reports" with
  | some (.arr _) => true
  | _ => false

/-- The `reports` array of a fragment (empty when absent). -/
def reportsOf {α : Type} (d : Dump α) : List α :=
  match dget d "reports" with
  | some (.arr xs) => xs
  | _ => []

/-! ## The merge branch of `get_dumps` (source lines 222-231) -/

/-- What `get_dumps` computes for `merged_reports_path`. -/
inductive MergedPathResult where
  | crash
  | ok (merged_reports_path : Option String)
  deriving DecidableEq

/-- Lines 226-231 of `get_dumps`: when at least one memory-report fragment
arrived, `merged_reports_path = os.path.abspath(merge_files(...))`, else
`None`.  `os.path.abspath` applied to the `None` returned by a failed merge
raises (`NoneType` has no attribute `startswith`), which escapes `do_work`;
`crash` records that.  On a successful merge the path is the
`memory-reports` file inside the session directory. -/
def get_dumps_merged_path {α : Type} [DecidableEq α]
    (out_dir : String) (memory_report_dumps : List (Dump α)) : MergedPathResult :=
  if memory_report_dumps.isEmpty then .ok none
  else
    match merge_files memory_report_dumps with
    | .merged _ _ => .ok (some (out_dir ++ "/memory-reports"))
    | .noMerge => .crash
    | .crash => .crash

/-! ## `process_dmd_files_impl` (source lines 112-148)

The classification regex is `re.match(r'^dmd-(\d+)-(\d+).(txt|json)', basename)`:
anchored at the start only, the dot between PID and format is the
metacharacter `.` (any byte except newline), and nothing anchors the end.
The embedding below reproduces the backtracking search of the Python
engine: both `(\d+)` groups are greedy, and the second one gives digits
back one at a time until the any-byte step and the `txt`/`json`
alternation succeed. -/

/-- The literal `dmd-` head of the pattern. -/
def dmdLit : List Char := ['d', 'm', 'd', '-']

/-- The literal `processed-` of the generic branch (line 137). -/
def processedLit : List Char := ['p', 'r', 'o', 'c', 'e', 's', 's', 'e', 'd', '-']

/-- `txt`. -/
def txtLit : List Char := ['t', 'x', 't']

/-- `json`. -/
def jsonLit : List Char := ['j', 's', 'o', 'n']

/-- `.gz`. -/
def gzLit : List Char := ['.', 'g', 'z']

/-- Match a literal at the head of the input, returning the remainder. -/
def dropLit : List Char → List Char → Option (List Char)
  | [], cs => some cs
  | _ :: _, [] => none
  | l :: ls, c :: cs => if c = l then dropLit ls cs else none

/-- The `(txt|json)` alternation at one position: `txt` is tried first, and
whatever follows the alternation is unconstrained. -/
def tryKinds (cs : List Char) : Option (List Char) :=
  if cs.take 3 = txtLit then some txtLit
  else if cs.take 4 = jsonLit then some jsonLit
  else none

/-- The backtracking tail `(\d+).(txt|json)` of the pattern.  The first
argument is the still-unconsumed part of the maximal digit run, reversed
(so its head is the last digit of the current candidate for group 2);
the second is the input after that candidate.  The engine first tries the
longest candidate; on failure the last digit is handed back to the input
and becomes available to the any-byte step `.` (which refuses a newline). -/
def dmdTail : List Char → List Char → Option (List Char × List Char)
  | [], _ => none
  | d :: ds, [] => dmdTail ds [d]
  | d :: ds, c :: rs =>
    if c = '\n' then dmdTail ds (d :: c :: rs)
    else
      match tryKinds rs with
      | some kind => some ((d :: ds).reverse, kind)
      | none => dmdTail ds (d :: c :: rs)

/-- `re.match(r'^dmd-(\d+)-(\d+).(txt|json)', basename)`, returning the
three groups (timestamp digits, PID digits, format).  Group 1 is forced to
the maximal digit run after `dmd-` (a shorter candidate would leave a digit
where the literal `-` is required). -/
def matchDmd (basename : List Char) : Option (List Char × List Char × List Char) :=
  match dropLit dmdLit basename with
  | none => none
  | some rest1 =>
    let g1 := rest1.takeWhile isDigitCh
    if g1.isEmpty then none
    else
      match rest1.drop g1.length with
      | '-' :: rest3 =>
        let run := rest3.takeWhile isDigitCh
        if run.isEmpty then none
        else
          match dmdTail run.reverse (rest3.drop run.length) with
          | some (g2, kind) => some (g1, g2, kind)
          | none => none
      | _ => none

/-- `pid in proc_names` / `proc_names[pid]` combined: look a PID up in the
name map built by `get_proc_names`. -/
def dlook : List (Nat × List Char) → Nat → Option (List Char)
  | [], _ => none
  | (k0, v0) :: m, k => if k0 = k then some v0 else dlook m k

/-- `str(n)` for the `%d` formatting of the PID. -/
def natDigits (n : Nat) : List Char :=
  Nat.toDigits 10 n

/-- `basename.endswith('.gz')`. -/
def endsWithGz (o : List Char) : Bool :=
  decide (o.reverse.take 3 = ['z', 'g', '.'])

/-- Lines 122-139: the name of the output artifact for one raw dump file.
A DMD-classified file is named from the resolved process name (when the PID
is in the map) or from the PID alone; anything else gets `processed-` in
front and one trailing `.gz` stripped. -/
def outfile_name (proc_names : List (Nat × List Char)) (basename : List Char) : List Char :=
  match matchDmd basename with
  | some (_, g2, kind) =>
    let pid := natOfDigits g2
    match dlook proc_names pid with
    | some proc_name => dmdLit ++ proc_name ++ ['-'] ++ natDigits pid ++ ['.'] ++ kind
    | none => dmdLit ++ natDigits pid ++ ['.'] ++ kind
  | none =>
    let o := processedLit ++ basename
    if endsWithGz o then o.take (o.length - 3) else o

/-- The name of the file actually opened for writing (line 142):
`outfile_path + '.gz'` under `--compress-dmd-logs` (the default), the bare
output name otherwise. -/
def writtenName (compress_dmd_logs : Bool) (out : List Char) : List Char :=
  if compress_dmd_logs then out ++ gzLit else out

/-- The spec-side name `originalBasenameWithoutTrailingGz`: the basename
with one trailing `.gz` removed when present.  Stated from the words of
the specification, for comparison with `outfile_name`. -/
def withoutTrailingGz (b : List Char) : List Char :=
  if endsWithGz b then b.take (b.length - 3) else b

/-- The argparse options consumed by the DMD batch. -/
structure DmdArgs where
  no_dmd : Bool
  compress_dmd_logs : Bool
  keep_individual_reports : Bool
  deriving DecidableEq

/-- The `for f in dmd_files` loop of `process_dmd_files_impl`
(lines 118-148).  `raises` is the oracle for the external work done on one
file (opening it, running `fix_b2g_stack.fix_b2g_stacks_in_file`,
removing the original): `true` means an exception is raised there.  The
loop body has no exception handler, so a raise ends the loop at once.
Returns the written output names, in order, and whether an exception
escaped the loop. -/
def process_dmd_files_impl (proc_names : List (Nat × List Char)) (args : DmdArgs)
    (raises : List Char → Bool) : List (List Char) → List (List Char) × Bool
  | [] => ([], false)
  | f :: fs =>
    if raises f then ([], true)
    else
      let out := writtenName args.compress_dmd_logs (outfile_name proc_names f)
      let r := process_dmd_files_impl proc_names args raises fs
      (out :: r.1, r.2)

/-- `process_dmd_files` (lines 43-61): skip the batch when there are no
DMD files or `--no-dmd` was given; otherwise run the loop inside
`try/except`.  The Boolean component now means: the exception was caught
and the failure message printed (it never propagates further). -/
def process_dmd_files (proc_names : List (Nat × List Char)) (args : DmdArgs)
    (raises : List Char → Bool) (dmd_files : List (List Char)) :
    List (List Char) × Bool :=
  if dmd_files.isEmpty || args.no_dmd then ([], false)
  else process_dmd_files_impl proc_names args raises dmd_files

/-! ## Lemmas about `get_proc_names` -/

theorem mem_dictUpdate {k : Nat} {v : List Char} {pr : Nat × List Char} :
    ∀ {m : List (Nat × List Char)}, pr ∈ dictUpdate m k v → pr ∈ m ∨ pr = (k, v) := by
  intro m
  induction m with
  | nil =>
    intro h
    simp only [dictUpdate, List.mem_singleton] at h
    exact Or.inr h
  | cons e m ih =>
    obtain ⟨k0, v0⟩ := e
    intro h
    simp only [dictUpdate] at h
    split at h
    · rcases List.mem_cons.mp h with h | h
      · exact Or.inr h
      · exact Or.inl (List.mem_cons_of_mem _ h)
    · rcases List.mem_cons.mp h with h | h
      · exact Or.inl (by simp [h])
      · rcases ih h with h | h
        · exact Or.inl (List.mem_cons_of_mem _ h)
        · exact Or.inr h

theorem isLowerWordCh_lowerCh {c : Char} (h : isWordCh c = true) :
    isLowerWordCh (lowerCh c) = true := by
  unfold isWordCh at h
  simp only [Bool.or_eq_true] at h
  unfold lowerCh
  by_cases hu : isUpperCh c = true
  · rw [if_pos hu]
    unfold isUpperCh at hu
    simp only [Bool.and_eq_true, decide_eq_true_eq] at hu
    have hv : Nat.isValidChar (c.toNat + 32) := Or.inl (by omega)
    have ht : (Char.ofNat (c.toNat + 32)).toNat = c.toNat + 32 := by
      rw [Char.ofNat, dif_pos hv]
      simp [Char.ofNatAux, Char.toNat, UInt32.toNat]
    unfold isLowerWordCh isLowerCh
    simp only [Bool.or_eq_true, Bool.and_eq_true, decide_eq_true_eq, ht]
    exact Or.inl (Or.inl (by omega))
  · rw [if_neg hu]
    unfold isLowerWordCh
    simp only [Bool.or_eq_true]
    rcases h with ((h | h) | h) | h
    · exact Or.inl (Or.inl h)
    · exact absurd h hu
    · exact Or.inl (Or.inr h)
    · exact Or.inr h

theorem normalized_all (w : List Char) :
    ((w.filter isWordCh).map lowerCh).all isLowerWordCh = true := by
  rw [List.all_eq_true]
  intro c hc
  rw [List.mem_map] at hc
  obtain ⟨c0, hc0, rfl⟩ := hc
  exact isLowerWordCh_lowerCh (List.mem_filter.mp hc0).2

theorem get_proc_names_aux (lines : List (List Char)) (m0 : List (Nat × List Char))
    (hm0 : ∀ pr ∈ m0, pr.2.all isLowerWordCh = true) :
    ∀ pr ∈ lines.foldl
      (fun proc_names line =>
        match procLineMatch line with
        | none => proc_names
        | some (w, ds) =>
          dictUpdate proc_names (natOfDigits ds) ((w.filter isWordCh).map lowerCh)) m0,
      pr.2.all isLowerWordCh = true := by
  induction lines generalizing m0 with
  | nil => simpa using hm0
  | cons line lines ih =>
    rw [List.foldl_cons]
    cases hm : procLineMatch line with
    | none => exact ih m0 hm0
    | some g =>
      obtain ⟨w, ds⟩ := g
      refine ih _ ?_
      intro q hq
      rcases mem_dictUpdate hq with h | h
      · exact hm0 q h
      · rw [h]
        exact normalized_all w

/-! ## Claim C1 -/

/-- C1 (counterexample): the claim that every resolved name contains only
lowercase alphanumeric characters is false on the code.  The procrank line
`a_b 5` matches the pattern and resolves PID 5 to the name `a_b`, which
keeps the underscore: `re.sub(r'\W', '', ...)` strips only non-word
characters, and `_` is a word character. -/
theorem c1_counterexample :
    ∃ pr ∈ get_proc_names ("a_b 5".toList), pr.2.all isLowerAlnumCh = false := by
  decide

/-- C1 (amended): for every process-list snapshot text, every PID appearing
in a line matching the expected shape is mapped by the resolver to a
normalized name containing only lowercase alphanumeric characters and
underscores (every non-word character stripped, result lowercased). -/
theorem c1_resolved_names_lower_word (text : List Char) (pid : Nat) (name : List Char)
    (h : (pid, name) ∈ get_proc_names text) :
    name.all isLowerWordCh = true := by
  unfold get_proc_names at h
  exact get_proc_names_aux _ [] (by simp) (pid, name) h

/-- C1 (witness): the amended theorem applied to the snapshot `a_b 5`. -/
theorem c1_resolved_names_lower_word_witness :
    (5, "a_b".toList) ∈ get_proc_names ("a_b 5".toList) ∧
      ("a_b".toList).all isLowerWordCh = true :=
  ⟨by decide, c1_resolved_names_lower_word ("a_b 5".toList) 5 ("a_b".toList) (by decide)⟩

/-! ## Lemmas about `merge_files` -/

theorem dkeys_dset {α : Type} (d : Dump α) (k : String) (v : JVal α) :
    dkeys (dset d k v) = dkeys d := by
  induction d with
  | nil => rfl
  | cons e d ih =>
    obtain ⟨k0, v0⟩ := e
    by_cases hk : k0 = k
    · simp only [dset, if_pos hk]
      show k :: dkeys (dset d k v) = k0 :: dkeys d
      rw [ih, hk]
    · simp only [dset, if_neg hk]
      show k0 :: dkeys (dset d k v) = k0 :: dkeys d
      rw [ih]

theorem dget_dset_self {α : Type} {d : Dump α} {k : String} {w : JVal α} (v : JVal α)
    (h : dget d k = some w) : dget (dset d k v) k = some v := by
  induction d with
  | nil => simp [dget] at h
  | cons e d ih =>
    obtain ⟨k0, v0⟩ := e
    by_cases hk : k0 = k
    · simp [dget, dset, hk]
    · simp only [dget, if_neg hk] at h
      simp only [dset, if_neg hk, dget, if_neg hk]
      exact ih h

theorem dget_dset_ne {α : Type} (d : Dump α) (k q : String) (v : JVal α)
    (h : q ≠ k) : dget (dset d k v) q = dget d q := by
  induction d with
  | nil => rfl
  | cons e d ih =>
    obtain ⟨k0, v0⟩ := e
    by_cases hk : k0 = k
    · have hkq : ¬ k = q := fun hh => h hh.symm
      simp only [dset, if_pos hk, dget, if_neg hkq, if_neg (hk ▸ hkq : ¬ k0 = q)]
      exact ih
    · simp only [dset, if_neg hk, dget]
      by_cases hq : k0 = q
      · simp [hq]
      · simp only [if_neg hq]
        exact ih

theorem dget_eq_none_iff {α : Type} (d : Dump α) (q : String) :
    dget d q = none ↔ q ∉ dkeys d := by
  induction d with
  | nil => simp [dget, dkeys]
  | cons e d ih =>
    obtain ⟨k0, v0⟩ := e
    by_cases hk : k0 = q
    · simp [dget, dkeys, hk]
    · have h1 : dget ((k0, v0) :: d) q = dget d q := by simp [dget, hk]
      have h2 : dkeys ((k0, v0) :: d) = k0 :: dkeys d := rfl
      rw [h1, ih, h2]
      simp [List.mem_cons, Ne.symm hk]

theorem sameKeys_mem_iff {ks ls : List String} (h : sameKeys ks ls = true) (x : String) :
    x ∈ ks ↔ x ∈ ls := by
  unfold sameKeys at h
  rw [Bool.and_eq_true, List.all_eq_true, List.all_eq_true] at h
  constructor
  · intro hx
    exact List.elem_iff.mp (h.1 x hx)
  · intro hx
    exact List.elem_iff.mp (h.2 x hx)

theorem hasArrReports_dget {α : Type} {d : Dump α} (h : hasArrReports d = true) :
    dget d "reports" = some (JVal.arr (reportsOf d)) := by
  unfold hasArrReports at h
  unfold reportsOf
  cases hg : dget d "reports" with
  | none => rw [hg] at h; simp at h
  | some v =>
    cases v with
    | atom a => rw [hg] at h; simp at h
    | arr xs => simp [hg]

theorem hasArrReports_of_dget {α : Type} {d : Dump α} {xs : List α}
    (h : dget d "reports" = some (JVal.arr xs)) : hasArrReports d = true := by
  unfold hasArrReports
  rw [h]

theorem reportsOf_of_dget {α : Type} {d : Dump α} {xs : List α}
    (h : dget d "reports" = some (JVal.arr xs)) : reportsOf d = xs := by
  unfold reportsOf
  rw [h]

theorem conflictProps_dset_reports {α : Type} [DecidableEq α] (acc dump : Dump α) (v : JVal α) :
    conflictProps (dset acc "reports" v) dump = conflictProps acc dump := by
  unfold conflictProps
  rw [dkeys_dset]
  apply List.filter_congr
  intro p _
  by_cases hp : p = "reports"
  · subst hp
    simp
  · rw [dget_dset_ne _ _ _ _ hp]

theorem merge_files_rest_cons_eq {α : Type} [DecidableEq α] (acc dump : Dump α)
    (confl : List String) (rest : List (Dump α))
    (hsk : sameKeys (dkeys dump) (dkeys acc) = true)
    (ha : dget acc "reports" = some (JVal.arr (reportsOf acc)))
    (hd : dget dump "reports" = some (JVal.arr (reportsOf dump))) :
    merge_files_rest acc confl (dump :: rest) =
      merge_files_rest (dset acc "reports" (JVal.arr (reportsOf acc ++ reportsOf dump)))
        (confl ++ conflictProps acc dump) rest := by
  simp only [merge_files_rest, hsk, if_true, hd, ha, jAdd]

theorem merge_files_rest_ok {α : Type} [DecidableEq α] (rest : List (Dump α)) :
    ∀ (acc : Dump α) (confl : List String),
      hasArrReports acc = true →
      (∀ d ∈ rest, hasArrReports d = true) →
      (∀ d ∈ rest, sameKeys (dkeys d) (dkeys acc) = true) →
      ∃ m, merge_files_rest acc confl rest =
          .merged m (confl ++ rest.flatMap (fun d => conflictProps acc d)) ∧
        dkeys m = dkeys acc ∧
        dget m "reports" = some (JVal.arr (reportsOf acc ++ rest.flatMap reportsOf)) ∧
        ∀ q, q ≠ "reports" → dget m q = dget acc q := by
  induction rest with
  | nil =>
    intro acc confl hacc _ _
    refine ⟨acc, ?_, rfl, ?_, fun q _ => rfl⟩
    · simp [merge_files_rest]
    · simpa using hasArrReports_dget hacc
  | cons dump rest ih =>
    intro acc confl hacc hrest hkeys
    have hsk : sameKeys (dkeys dump) (dkeys acc) = true := hkeys dump (by simp)
    have hdump := hasArrReports_dget (hrest dump (by simp))
    have haccr := hasArrReports_dget hacc
    have hget1 : dget (dset acc "reports" (JVal.arr (reportsOf acc ++ reportsOf dump)))
        "reports" = some (JVal.arr (reportsOf acc ++ reportsOf dump)) :=
      dget_dset_self _ haccr
    obtain ⟨m, hm, hkeys_m, hrep_m, hprops_m⟩ :=
      ih (dset acc "reports" (JVal.arr (reportsOf acc ++ reportsOf dump)))
        (confl ++ conflictProps acc dump)
        (hasArrReports_of_dget hget1)
        (fun d hd => hrest d (List.mem_cons_of_mem _ hd))
        (fun d hd => by
          rw [dkeys_dset]
          exact hkeys d (List.mem_cons_of_mem _ hd))
    refine ⟨m, ?_, ?_, ?_, ?_⟩
    · rw [merge_files_rest_cons_eq acc dump confl rest hsk haccr hdump, hm]
      simp only [conflictProps_dset_reports, List.flatMap_cons, List.append_assoc]
    · rw [hkeys_m, dkeys_dset]
    · rw [hrep_m, reportsOf_of_dget hget1]
      simp [List.flatMap_cons, List.append_assoc]
    · intro q hq
      rw [hprops_m q hq, dget_dset_ne _ _ _ _ hq]

theorem merge_files_rest_mismatch {α : Type} [DecidableEq α] (rest : List (Dump α)) :
    ∀ (acc : Dump α) (confl : List String),
      hasArrReports acc = true →
      (∀ d ∈ rest, hasArrReports d = true) →
      (¬ ∀ d ∈ rest, sameKeys (dkeys d) (dkeys acc) = true) →
      merge_files_rest acc confl rest = .noMerge := by
  induction rest with
  | nil =>
    intro acc confl _ _ hmis
    exact absurd (by simp) hmis
  | cons dump rest ih =>
    intro acc confl hacc hrest hmis
    by_cases hsk : sameKeys (dkeys dump) (dkeys acc) = true
    · have hdump := hasArrReports_dget (hrest dump (by simp))
      have haccr := hasArrReports_dget hacc
      rw [merge_files_rest_cons_eq acc dump confl rest hsk haccr hdump]
      apply ih
      · exact hasArrReports_of_dget (dget_dset_self _ haccr)
      · exact fun d hd => hrest d (List.mem_cons_of_mem _ hd)
      · intro hall
        apply hmis
        intro d hd
        rcases List.mem_cons.mp hd with rfl | hd
        · exact hsk
        · have hh := hall d hd
          rwa [dkeys_dset] at hh
    · have hsk0 : sameKeys (dkeys dump) (dkeys acc) = false := by
        simpa using hsk
      simp [merge_files_rest, hsk0]

/-! ## Claims C2, C3, C4, C5, C9 -/

/-- C2: if the fragments disagree on their set of top-level property names,
the merge produces no merged report at all: the `return` at line 188 runs
(`noMerge`), so nothing crashes, no `memory-reports` file is written and no
partial document is handed out — regardless of which fragment in the
sequence has the differing key set.  The hypotheses say the inputs are
MemoryReportFragment-shaped (each carries an array-valued `reports`
property, which the earlier loop iterations concatenate). -/
theorem c2_schema_mismatch_no_merge {α : Type} [DecidableEq α] (d0 : Dump α)
    (rest : List (Dump α))
    (h0 : hasArrReports d0 = true)
    (hrest : ∀ d ∈ rest, hasArrReports d = true)
    (hmis : ¬ ∀ d ∈ rest, sameKeys (dkeys d) (dkeys d0) = true) :
    merge_files (d0 :: rest) = .noMerge := by
  simp only [merge_files]
  exact merge_files_rest_mismatch rest d0 [] h0 hrest hmis

/-- C2 (witness): three fragments, the third with a differing key set. -/
theorem c2_schema_mismatch_no_merge_witness :
    hasArrReports ([("version", JVal.atom 1), ("reports", JVal.arr [1])] : Dump Nat) = true ∧
    (∀ d ∈ [([("version", JVal.atom 1), ("reports", JVal.arr [2])] : Dump Nat),
            [("other", JVal.atom 1), ("reports", JVal.arr [3])]],
        hasArrReports d = true) ∧
    (¬ ∀ d ∈ [([("version", JVal.atom 1), ("reports", JVal.arr [2])] : Dump Nat),
            [("other", JVal.atom 1), ("reports", JVal.arr [3])]],
        sameKeys (dkeys d)
          (dkeys ([("version", JVal.atom 1), ("reports", JVal.arr [1])] : Dump Nat)) = true) ∧
    merge_files ([[("version", JVal.atom 1), ("reports", JVal.arr [1])],
                  [("version", JVal.atom 1), ("reports", JVal.arr [2])],
                  [("other", JVal.atom 1), ("reports", JVal.arr [3])]] : List (Dump Nat)) =
      .noMerge :=
  ⟨by decide, by decide, by decide,
    c2_schema_mismatch_no_merge _ _ (by decide) (by decide) (by decide)⟩

/-- C3 (code bug): when the merge fails with a schema mismatch,
`merge_files` returns `None`, and `get_dumps` (line 227) immediately feeds
that into `os.path.abspath`, which raises on `None` — so the run aborts
instead of proceeding without a consolidated report.  The claim (and the
None-path handling in `get_and_show_info`, lines 289-291) describe the
clear intent; the unguarded `abspath` call breaks it. -/
theorem c3_get_dumps_crash_on_schema_mismatch :
    get_dumps_merged_path "about-memory-0"
      ([[("version", JVal.atom 1), ("reports", JVal.arr [1])],
        [("other", JVal.atom 1), ("reports", JVal.arr [2])]] : List (Dump Nat)) = .crash := by
  decide

/-- C4: for every non-empty sequence of fragments with identical
property-name sets, the merge succeeds and the merged report's `reports`
list is the concatenation, in the order the fragments were supplied, of all
input fragments' `reports` lists. -/
theorem c4_merge_reports_concat {α : Type} [DecidableEq α] (d0 : Dump α)
    (rest : List (Dump α))
    (h0 : hasArrReports d0 = true)
    (hrest : ∀ d ∈ rest, hasArrReports d = true)
    (hkeys : ∀ d ∈ rest, sameKeys (dkeys d) (dkeys d0) = true) :
    ∃ m cs, merge_files (d0 :: rest) = .merged m cs ∧
      dget m "reports" = some (JVal.arr ((d0 :: rest).flatMap reportsOf)) := by
  obtain ⟨m, hm, _, hrep, _⟩ := merge_files_rest_ok rest d0 [] h0 hrest hkeys
  refine ⟨m, [] ++ rest.flatMap (fun d => conflictProps d0 d), ?_, ?_⟩
  · simpa only [merge_files] using hm
  · rw [hrep, List.flatMap_cons]

/-- C4 (witness): two fragments with reports `[1, 2]` and `[3]`. -/
theorem c4_merge_reports_concat_witness :
    ∃ m cs,
      merge_files ([[("version", JVal.atom 1), ("reports", JVal.arr [1, 2])],
                    [("version", JVal.atom 1), ("reports", JVal.arr [3])]] : List (Dump Nat)) =
        .merged m cs ∧
      dget m "reports" =
        some (JVal.arr (([[("version", JVal.atom 1), ("reports", JVal.arr [1, 2])],
                          [("version", JVal.atom 1), ("reports", JVal.arr [3])]] :
            List (Dump Nat)).flatMap reportsOf)) :=
  c4_merge_reports_concat _ _ (by decide) (by decide) (by decide)

/-- C5: when fragments have equal property-name sets but disagree on the
value of a property `p` other than `reports`, the merge still completes
and produces a merged report, the conflict for `p` is reported (its
message is printed), and the merged report carries the first fragment's
value for `p` (the accumulator value is never overwritten). -/
theorem c5_property_conflict {α : Type} [DecidableEq α] (d0 : Dump α)
    (rest : List (Dump α)) (p : String)
    (h0 : hasArrReports d0 = true)
    (hrest : ∀ d ∈ rest, hasArrReports d = true)
    (hkeys : ∀ d ∈ rest, sameKeys (dkeys d) (dkeys d0) = true)
    (hp : p ≠ "reports")
    (hdis : ∃ d ∈ rest, dget d p ≠ dget d0 p) :
    ∃ m cs, merge_files (d0 :: rest) = .merged m cs ∧ p ∈ cs ∧
      dget m p = dget d0 p := by
  obtain ⟨m, hm, _, _, hprops⟩ := merge_files_rest_ok rest d0 [] h0 hrest hkeys
  refine ⟨m, [] ++ rest.flatMap (fun d => conflictProps d0 d), ?_, ?_, hprops p hp⟩
  · simpa only [merge_files] using hm
  · obtain ⟨d, hd, hne⟩ := hdis
    have hpk : p ∈ dkeys d0 := by
      by_cases h1 : p ∈ dkeys d0

      · exact h1
      · exfalso
        have hn0 : dget d0 p = none := (dget_eq_none_iff d0 p).mpr h1
        have h2 : p ∉ dkeys d := fun hh => h1 ((sameKeys_mem_iff (hkeys d hd) p).mp hh)
        have hnd : dget d p = none := (dget_eq_none_iff d p).mpr h2
        rw [hn0, hnd] at hne
        exact hne rfl
    rw [List.nil_append]
    apply List.mem_flatMap.mpr
    refine ⟨d, hd, ?_⟩
    apply List.mem_filter.mpr
    refine ⟨hpk, ?_⟩
    rw [Bool.and_eq_true, decide_eq_true_eq, decide_eq_true_eq]
    exact ⟨hp, hne⟩

/-- C5 (witness): two fragments agreeing on keys but not on `version`. -/
theorem c5_property_conflict_witness :
    ∃ m cs,
      merge_files ([[("version", JVal.atom 1), ("reports", JVal.arr [1])],
                    [("version", JVal.atom 2), ("reports", JVal.arr [2])]] : List (Dump Nat)) =
        .merged m cs ∧
      "version" ∈ cs ∧
      dget m "version" =
        dget ([("version", JVal.atom 1), ("reports", JVal.arr [1])] : Dump Nat) "version" :=
  c5_property_conflict _ _ "version" (by decide) (by decide) (by decide) (by decide) (by decide)

/-- C9: if the sequence of memory-report fragments is empty, `get_dumps`
never calls `merge_files` (the `if memory_report_files` guard fails), no
output path is produced (`merged_reports_path = None`) and nothing
crashes: the caller sees "no report available". -/
theorem c9_empty_fragment_list_ok {α : Type} [DecidableEq α] (out_dir : String) :
    get_dumps_merged_path out_dir ([] : List (Dump α)) = .ok none := rfl

/-! ## Lemmas about the DMD filename pattern -/

theorem takeWhile_append_all {α : Type} {p : α → Bool} {l : List α} (r : List α)
    (h : ∀ x ∈ l, p x = true) : (l ++ r).takeWhile p = l ++ r.takeWhile p := by
  induction l with
  | nil => simp
  | cons c l ih =>
    rw [List.cons_append, List.takeWhile_cons, if_pos (h c (by simp)),
      ih (fun x hx => h x (by simp [hx])), List.cons_append]

theorem dropLit_append (l r : List Char) : dropLit l (l ++ r) = some r := by
  induction l with
  | nil => rfl
  | cons c l ih => simp [dropLit, ih]

theorem tryKinds_txt (t : List Char) : tryKinds (txtLit ++ t) = some txtLit := by
  simp [tryKinds, txtLit, jsonLit]

theorem tryKinds_json (t : List Char) : tryKinds (jsonLit ++ t) = some jsonLit := by
  simp [tryKinds, txtLit, jsonLit]

theorem tryKinds_kind {kind : List Char} (t : List Char)
    (hk : kind = txtLit ∨ kind = jsonLit) : tryKinds (kind ++ t) = some kind := by
  rcases hk with rfl | rfl
  · exact tryKinds_txt t
  · exact tryKinds_json t

theorem tryKinds_xt (t : List Char) : tryKinds ('x' :: 't' :: t) = none := by
  simp [tryKinds, txtLit, jsonLit]

theorem tryKinds_son (t : List Char) : tryKinds ('s' :: 'o' :: 'n' :: t) = none := by
  simp [tryKinds, txtLit, jsonLit]

theorem dmdTail_hit (d : Char) (ds : List Char) (c : Char) (rs : List Char) (kind : List Char)
    (hc : ¬ c = '\n') (hk : tryKinds rs = some kind) :
    dmdTail (d :: ds) (c :: rs) = some ((d :: ds).reverse, kind) := by
  simp [dmdTail, hc, hk]

theorem dmdTail_miss (d : Char) (ds : List Char) (c : Char) (rs : List Char)
    (hk : tryKinds rs = none) :
    dmdTail (d :: ds) (c :: rs) = dmdTail ds (d :: c :: rs) := by
  by_cases hc : c = '\n'
  · simp [dmdTail, hc]
  · simp [dmdTail, hc, hk]

/-! ## Claim C10 -/

/-- C10 (amended): the DMD pattern needs no literal dot between PID and
format and no end anchor, but the any-character step is the regex
metacharacter `.`, which refuses a newline.  Every basename of the form
`dmd-` digits `-` digits, then one non-newline character, then `txt` or
`json`, then anything, is classified as a DMD dump with exactly those
groups (timestamp digits, PID digits, format). -/
theorem c10_loose_dmd_pattern (d1 d2 : List Char) (c : Char) (kind trailing : List Char)
    (h1 : d1 ≠ []) (h1d : ∀ x ∈ d1, isDigitCh x = true)
    (h2 : d2 ≠ []) (h2d : ∀ x ∈ d2, isDigitCh x = true)
    (hc : c ≠ '\n')
    (hk : kind = txtLit ∨ kind = jsonLit) :
    matchDmd (dmdLit ++ (d1 ++ ('-' :: (d2 ++ (c :: (kind ++ trailing)))))) =
      some (d1, d2, kind) := by
  have hdash : isDigitCh '-' = false := by decide
  obtain ⟨e2, es2, hrev2⟩ : ∃ e es, d2.reverse = e :: es := by
    cases hh : d2.reverse with
    | nil => exact absurd (List.reverse_eq_nil_iff.mp hh) h2
    | cons e es => exact ⟨e, es, rfl⟩
  have hg1 : (d1 ++ ('-' :: (d2 ++ (c :: (kind ++ trailing))))).takeWhile isDigitCh = d1 := by
    rw [takeWhile_append_all _ h1d, List.takeWhile_cons, hdash]
    simp
  have hdrop1 : (d1 ++ ('-' :: (d2 ++ (c :: (kind ++ trailing))))).drop d1.length
      = '-' :: (d2 ++ (c :: (kind ++ trailing))) := List.drop_left d1 _
  have h1e : d1.isEmpty = false := by
    cases d1
    · exact absurd rfl h1
    · rfl
  have hkh : (kind ++ trailing).takeWhile isDigitCh = [] := by
    have ht : isDigitCh 't' = false := by decide
    have hj : isDigitCh 'j' = false := by decide
    rcases hk with rfl | rfl
    · simp [txtLit, List.takeWhile_cons, ht]
    · simp [jsonLit, List.takeWhile_cons, hj]
  unfold matchDmd
  rw [dropLit_append]
  simp only [hg1, h1e, hdrop1, Bool.false_eq_true, if_false]
  by_cases hcd : isDigitCh c = true
  · -- the any-character is itself a digit: the engine first tries the
    -- longer candidate for group 2 and backtracks one digit
    have hrun : (d2 ++ (c :: (kind ++ trailing))).takeWhile isDigitCh = d2 ++ [c] := by
      rw [takeWhile_append_all _ h2d, List.takeWhile_cons, if_pos hcd, hkh]
    have hre : (d2 ++ [c]).isEmpty = false := by
      cases d2 <;> rfl
    have hsplit : d2 ++ (c :: (kind ++ trailing)) = (d2 ++ [c]) ++ (kind ++ trailing) := by
      simp
    have hdrop2 : (d2 ++ (c :: (kind ++ trailing))).drop (d2 ++ [c]).length
        = kind ++ trailing := by
      rw [hsplit]
      exact List.drop_left _ _
    have hrev : (d2 ++ [c]).reverse = c :: (e2 :: es2) := by
      rw [List.reverse_append, hrev2]
      rfl
    have htail : dmdTail ((d2 ++ [c]).reverse) (kind ++ trailing) = some (d2, kind) := by
      rw [hrev]
      rcases hk with rfl | rfl
      · rw [show txtLit ++ trailing = 't' :: ('x' :: 't' :: trailing) from rfl,
          dmdTail_miss _ _ _ _ (tryKinds_xt trailing),
          dmdTail_hit e2 es2 c ('t' :: 'x' :: 't' :: trailing) txtLit hc
            (tryKinds_txt trailing), ← hrev2]
        simp
      · rw [show jsonLit ++ trailing = 'j' :: ('s' :: 'o' :: 'n' :: trailing) from rfl,
          dmdTail_miss _ _ _ _ (tryKinds_son trailing),
          dmdTail_hit e2 es2 c ('j' :: 's' :: 'o' :: 'n' :: trailing) jsonLit hc
            (tryKinds_json trailing), ← hrev2]
        simp
    simp only [hrun, hre, hdrop2, htail, Bool.false_eq_true, if_false]
  · -- the any-character is not a digit: group 2 is the full digit run
    have hcd0 : isDigitCh c = false := by
      simpa using hcd
    have hrun : (d2 ++ (c :: (kind ++ trailing))).takeWhile isDigitCh = d2 := by
      rw [takeWhile_append_all _ h2d, List.takeWhile_cons, hcd0]
      simp
    have hre : d2.isEmpty = false := by
      cases d2
      · exact absurd rfl h2
      · rfl
    have hdrop2 : (d2 ++ (c :: (kind ++ trailing))).drop d2.length
        = c :: (kind ++ trailing) := List.drop_left _ _
    have htail : dmdTail (d2.reverse) (c :: (kind ++ trailing)) = some (d2, kind) := by
      rw [hrev2, dmdTail_hit e2 es2 c _ kind hc (tryKinds_kind trailing hk), ← hrev2]
      simp
    simp only [hrun, hre, hdrop2, htail, Bool.false_eq_true, if_false]

/-- C10 (counterexample): with a newline in the any-character slot the
pattern does not match — the regex metacharacter `.` refuses a newline —
so the basename falls through to the generic `processed-` scheme, and the
claim as stated (any single character) is false. -/
theorem c10_counterexample :
    matchDmd ("dmd-9999999-111\njson".toList) = none ∧
    outfile_name [] ("dmd-9999999-111\njson".toList) =
      processedLit ++ "dmd-9999999-111\njson".toList := by
  decide

/-- C10 (witness): the example `dmd-9999999-111Xjson` from the claim. -/
theorem c10_loose_dmd_pattern_witness :
    matchDmd ("dmd-9999999-111Xjson".toList) =
      some ("9999999".toList, "111".toList, jsonLit) :=
  c10_loose_dmd_pattern ("9999999".toList) ("111".toList) 'X' jsonLit []
    (by decide) (by decide) (by decide) (by decide) (by decide) (Or.inr rfl)

/-! ## Claims C6, C7, C8 -/

/-- C6: for every DMD-classified artifact, the output filename is
`dmd-<resolvedName>-<pid>.<format>` when the PID is present in the name map
and `dmd-<pid>.<format>` when it is not, and the file actually opened for
writing carries a `.gz` suffix exactly when the compress-DMD-logs option
is enabled. -/
theorem c6_dmd_output_naming (proc_names : List (Nat × List Char))
    (basename g1 g2 kind : List Char) (compress : Bool)
    (h : matchDmd basename = some (g1, g2, kind)) :
    writtenName compress (outfile_name proc_names basename) =
      (match dlook proc_names (natOfDigits g2) with
       | some proc_name =>
         dmdLit ++ proc_name ++ ['-'] ++ natDigits (natOfDigits g2) ++ ['.'] ++ kind
       | none => dmdLit ++ natDigits (natOfDigits g2) ++ ['.'] ++ kind) ++
      (if compress then gzLit else []) := by
  unfold outfile_name writtenName
  rw [h]
  cases hl : dlook proc_names (natOfDigits g2) <;> cases compress <;> simp [hl]

/-- C6 (witness): the spec example `dmd-9999999-111.json.gz` with PID 111
resolved to `system`, compression disabled. -/
theorem c6_dmd_output_naming_witness :
    matchDmd ("dmd-9999999-111.json.gz".toList) =
      some ("9999999".toList, "111".toList, jsonLit) ∧
    writtenName false (outfile_name [(111, "system".toList)]
        ("dmd-9999999-111.json.gz".toList)) =
      (match dlook [(111, "system".toList)] (natOfDigits ("111".toList)) with
       | some proc_name =>
         dmdLit ++ proc_name ++ ['-'] ++ natDigits (natOfDigits ("111".toList)) ++
           ['.'] ++ jsonLit
       | none => dmdLit ++ natDigits (natOfDigits ("111".toList)) ++ ['.'] ++ jsonLit) ++
      (if false then gzLit else []) :=
  ⟨by decide,
    c6_dmd_output_naming [(111, "system".toList)] ("dmd-9999999-111.json.gz".toList)
      ("9999999".toList) ("111".toList) jsonLit false (by decide)⟩

theorem endsWithGz_append_processed (b : List Char) :
    endsWithGz (processedLit ++ b) = endsWithGz b := by
  match b with
  | [] => decide
  | [x] => simp [endsWithGz, processedLit]
  | [x, y] => simp [endsWithGz, processedLit]
  | x :: y :: z :: t =>
    unfold endsWithGz
    rw [List.reverse_append, List.take_append_eq_append_take]
    have h0 : 3 - (x :: y :: z :: t).reverse.length = 0 := by
      rw [List.length_reverse]
      simp
    rw [h0, List.take_zero, List.append_nil]

theorem endsWithGz_length {b : List Char} (h : endsWithGz b = true) : 3 ≤ b.length := by
  unfold endsWithGz at h
  rw [decide_eq_true_eq] at h
  have h2 := congrArg List.length h
  simp [List.length_take, List.length_reverse] at h2
  omega

theorem take_append_processed (b : List Char) (h : 3 ≤ b.length) :
    (processedLit ++ b).take ((processedLit ++ b).length - 3) =
      processedLit ++ b.take (b.length - 3) := by
  rw [List.length_append, List.take_append_eq_append_take]
  have h1 : processedLit.length = 10 := rfl
  have h2 : processedLit.length + b.length - 3 - processedLit.length = b.length - 3 := by
    omega
  have h3 : processedLit.take (processedLit.length + b.length - 3) = processedLit :=
    List.take_of_length_le (by omega)
  rw [h2, h3]

/-- C7 (counterexample): under the default `--compress-dmd-logs` setting,
the file actually written for the generic artifact `foo-report.txt.gz` is
`processed-foo-report.txt.gz`, not the bare `processed-foo-report.txt`
demanded by the claim. -/
theorem c7_counterexample :
    matchDmd ("foo-report.txt.gz".toList) = none ∧
    writtenName true (outfile_name [] ("foo-report.txt.gz".toList)) ≠
      processedLit ++ withoutTrailingGz ("foo-report.txt.gz".toList) := by
  decide

/-- C7 (amended): for every artifact not matching the DMD naming pattern,
the computed output name is exactly `processed-<originalBasename>` with a
trailing `.gz` compression suffix stripped, and the name of the file
actually written additionally carries a `.gz` suffix exactly when the
compress-DMD-logs option is enabled. -/
theorem c7_generic_naming (proc_names : List (Nat × List Char)) (basename : List Char)
    (compress : Bool) (h : matchDmd basename = none) :
    writtenName compress (outfile_name proc_names basename) =
      (processedLit ++ withoutTrailingGz basename) ++ (if compress then gzLit else []) := by
  unfold outfile_name writtenName withoutTrailingGz
  rw [h]
  simp only [endsWithGz_append_processed]
  by_cases hgz : endsWithGz basename = true
  · rw [if_pos hgz, if_pos hgz, take_append_processed basename (endsWithGz_length hgz)]
    cases compress <;> simp
  · rw [if_neg hgz, if_neg hgz]
    cases compress <;> simp

/-- C7 (witness): the amended theorem at `foo-report.txt.gz` with
compression enabled. -/
theorem c7_generic_naming_witness :
    matchDmd ("foo-report.txt.gz".toList) = none ∧
    writtenName true (outfile_name [] ("foo-report.txt.gz".toList)) =
      (processedLit ++ withoutTrailingGz ("foo-report.txt.gz".toList)) ++
        (if true then gzLit else []) :=
  ⟨by decide, c7_generic_naming [] ("foo-report.txt.gz".toList) true (by decide)⟩

theorem process_dmd_files_impl_eq (proc_names : List (Nat × List Char)) (args : DmdArgs)
    (raises : List Char → Bool) (files : List (List Char)) :
    process_dmd_files_impl proc_names args raises files =
      ((files.takeWhile (fun f => !raises f)).map
        (fun f => writtenName args.compress_dmd_logs (outfile_name proc_names f)),
       files.any raises) := by
  induction files with
  | nil => rfl
  | cons f fs ih =>
    cases hr : raises f <;>
      simp [process_dmd_files_impl, hr, List.takeWhile_cons, ih]

/-- C8 (counterexample): with two DMD files of which only the first
raises, the loop body has no per-file handler, so the second file is never
processed; the claim that the remaining artifacts are still processed is
false. -/
theorem c8_counterexample :
    (fun f => f == "dmd-1-2.txt.gz".toList) ("other-dump.txt.gz".toList) = false ∧
    writtenName false (outfile_name [] ("other-dump.txt.gz".toList)) ∉
      (process_dmd_files_impl [] (DmdArgs.mk false false false)
        (fun f => f == "dmd-1-2.txt.gz".toList)
        [("dmd-1-2.txt.gz".toList), ("other-dump.txt.gz".toList)]).1 := by
  decide

/-- C8 (amended): an exception raised while processing one artifact aborts
the processing of the remaining artifacts — exactly the artifacts strictly
before the first failing one are processed, and their outputs remain — and
`process_dmd_files` catches the exception (the Boolean component records
that the failure message was printed; nothing propagates to the caller,
and the raw dumps of the unprocessed artifacts stay on disk). -/
theorem c8_batch_stops_at_first_failure (proc_names : List (Nat × List Char))
    (args : DmdArgs) (raises : List Char → Bool) (files : List (List Char))
    (h1 : files ≠ []) (h2 : args.no_dmd = false) :
    process_dmd_files proc_names args raises files =
      ((files.takeWhile (fun f => !raises f)).map
        (fun f => writtenName args.compress_dmd_logs (outfile_name proc_names f)),
       files.any raises) := by
  have he : files.isEmpty = false := by
    cases files
    · exact absurd rfl h1
    · rfl
  simp [process_dmd_files, he, h2, process_dmd_files_impl_eq]

/-- C8 (witness): the amended theorem on a two-file batch whose first file
raises. -/
theorem c8_batch_stops_at_first_failure_witness :
    ([("dmd-1-2.txt.gz".toList), ("other-dump.txt.gz".toList)] : List (List Char)) ≠ [] ∧
    process_dmd_files [] (DmdArgs.mk false false false)
        (fun f => f == "dmd-1-2.txt.gz".toList)
        [("dmd-1-2.txt.gz".toList), ("other-dump.txt.gz".toList)] =
      (([("dmd-1-2.txt.gz".toList), ("other-dump.txt.gz".toList)].takeWhile
          (fun f => !(fun (f : List Char) => f == "dmd-1-2.txt.gz".toList) f)).map
        (fun f => writtenName (DmdArgs.mk false false false).compress_dmd_logs
          (outfile_name [] f)),
       [("dmd-1-2.txt.gz".toList), ("other-dump.txt.gz".toList)].any
         (fun f => f == "dmd-1-2.txt.gz".toList)) :=
  ⟨by decide,
    c8_batch_stops_at_first_failure [] (DmdArgs.mk false false false)
      (fun f => f == "dmd-1-2.txt.gz".toList)
      [("dmd-1-2.txt.gz".toList), ("other-dump.txt.gz".toList)] (by decide) rfl⟩

end B2G
